import Mathlib

/-!
Verification of the heuristic structured-data extraction engine
(`identify.py` and `pin_table.py`): token classification, candidate
merging, and the pin-table discovery / scoring / selection /
normalization pipeline.  Python strings are modelled as `String`
(char lists), regular expressions are unfolded into explicit scanners
with the same word-boundary semantics, and the two entry points are
modelled as pure functions over a structural document model.
-/

/-! ## Character and string primitives (Python semantics, ASCII data) -/

/-- Python `\w`: letters, digits and underscore. -/
def isWordC (c : Char) : Bool := c.isAlphanum || c = '_'

/-- Python `\s` for the ASCII range. -/
def isPySpace (c : Char) : Bool :=
  c = ' ' || c = '\t' || c = '\n' || c = '\r' || c = Char.ofNat 11 || c = Char.ofNat 12

/-- Python `str.strip()`. -/
def pyStrip (s : List Char) : List Char :=
  ((s.dropWhile isPySpace).reverse.dropWhile isPySpace).reverse

/-- Python `str.upper()` (ASCII). -/
def pyUpper (s : String) : String := String.mk (s.data.map Char.toUpper)

/-- Python `str.lower()` (ASCII). -/
def pyLower (s : String) : String := String.mk (s.data.map Char.toLower)

/-- `n` is a prefix of `h` (decidable, by characters). -/
def startsWithC : List Char → List Char → Bool
  | [], _ => true
  | _ :: _, [] => false
  | a :: as, b :: bs => a = b && startsWithC as bs

/-- Python `n in h`: `n` occurs as a contiguous substring of `h`. -/
def containsSub : List Char → List Char → Bool
  | n, [] => n.isEmpty
  | n, c :: h => startsWithC n (c :: h) || containsSub n h

/-- Substring test on strings (Python `n in h`). -/
def containsSubS (n h : String) : Bool := containsSub n.data h.data

/-- Python code-point comparison on strings (used by tuple sort / `sorted`). -/
def strLtB : List Char → List Char → Bool
  | [], [] => false
  | [], _ :: _ => true
  | _ :: _, [] => false
  | a :: as, b :: bs => if a < b then true else if a = b then strLtB as bs else false

/-- `\b` seen from the left of a position: previous character absent or non-word. -/
def wordBoundOK : Option Char → Bool
  | none => true
  | some c => !isWordC c

/-- `\b` after a match ending in a word character: next char absent or non-word. -/
def endBoundNoWord : Option Char → Bool
  | none => true
  | some a => !isWordC a

/-- `\b` after the last matched char `last`, given the following char. -/
def boundEndOK (last : Char) (after : Option Char) : Bool :=
  match after with
  | none => isWordC last
  | some a => isWordC last != isWordC a

def isUpperDigit (c : Char) : Bool := c.isUpper || c.isDigit

/-! ## Pattern vocabulary of `identify.py` -/

def REJECT : List String := ["PDF", "HTML", "UTF-8", "UTF8", "ISO-8859-1", "ASCII"]

def PROTO_REJECT : List String :=
  ["USB3.0", "USB3", "USB2.0", "LPDDR4", "DDR3", "DDR3L", "DDR4", "H.264", "WMV9",
   "ETHERNET", "CAN", "I2C", "SPI", "UART", "SD3.0", "MIPI", "PCIE", "SATA", "SD24",
   "MCLK", "SMCLK", "ACLK", "DVSS", "AVSS", "VREF", "VCORE", "NMI", "JTAG", "TCK",
   "TMS", "TDI", "TDO"]

/-- Literal alternatives of `SIG_RE` (the `P\d` alternative is handled separately). -/
def sigPre : List String :=
  ["UCA", "USART", "UART", "SPI", "I2C", "I2S", "CAN", "TA", "TB", "TC", "TIM",
   "ADC", "DAC", "GPIO", "PORT", "SD", "USB", "ETH", "CLK", "MCLK", "SMCLK",
   "ACLK", "JTAG", "NMI"]

/-- Character class `[A-Z0-9/._-]` of `SIG_RE` (input already upper-cased). -/
def sigClassC (c : Char) : Bool :=
  c.isUpper || c.isDigit || c = '/' || c = '.' || c = '_' || c = '-'

/-- `SIG_RE.match(tok)` (case-insensitive, anchored): a known signal prefix, or
`P` followed by a digit, then only `[A-Z0-9/._-]` characters to the end. -/
def sigMatch (tok : String) : Bool :=
  let u := tok.data.map Char.toUpper
  sigPre.any (fun p => startsWithC p.data u && (u.drop p.data.length).all sigClassC)
  || (match u with
      | 'P' :: d :: rest => d.isDigit && rest.all sigClassC
      | _ => false)

/-- `re.search(r"\d+\.\d+", tok)`: a digit, a dot, a digit, consecutively. -/
def hasDecimalSub : List Char → Bool
  | a :: b :: c :: rest => (a.isDigit && b = '.' && c.isDigit) || hasDecimalSub (b :: c :: rest)
  | _ => false

def punctC (c : Char) : Bool := c = '.' || c = '+' || c = '-' || c = '_'

/-- `re.search(r"[\.+\-_]{4,}", tok)`: four consecutive punctuation characters. -/
def hasPunctRun4 : List Char → Bool
  | a :: b :: c :: d :: rest =>
    (punctC a && punctC b && punctC c && punctC d) || hasPunctRun4 (b :: c :: d :: rest)
  | _ => false

/-- Character class `[A-Z0-9\-\.]` of `TOKEN_RE`. -/
def tokClassC (c : Char) : Bool := c.isUpper || c.isDigit || c = '-' || c = '.'

/-- `is_part_token` from `identify.py`. -/
def isPartToken (tok : String) : Bool :=
  if tok ∈ REJECT || pyUpper tok ∈ PROTO_REJECT then false
  else if tok.data.isEmpty || tok.data.length < 4 || tok.data.length > 80 then false
  else if !(tok.data.headD ' ').isAlpha then false
  else if (tok.data.filter Char.isDigit).length = 0 then false
  else if hasDecimalSub tok.data then false
  else if sigMatch tok then false
  else if hasPunctRun4 tok.data then false
  else if !(!tok.data.isEmpty && tok.data.all tokClassC) then false
  else true

/-! ## `ORDER_HEADER` search -/

/-- Alternatives of `ORDER_HEADER`, as word lists separated by `\s*`. -/
def orderAlts : List (List String) :=
  [["order"], ["ordering"], ["orderable"], ["order", "code"], ["order", "number"],
   ["orderable", "device"], ["device", "name"], ["device"], ["part", "number"],
   ["mpn"], ["ordering", "information"], ["product", "number"]]

/-- Match a sequence of literal words separated by `\s*`; returns the remainder. -/
def matchWordsRest : List (List Char) → List Char → Option (List Char)
  | [], rest => some rest
  | [w], rest => if startsWithC w rest then some (rest.drop w.length) else none
  | w :: w2 :: ws, rest =>
    if startsWithC w rest then
      matchWordsRest (w2 :: ws) ((rest.drop w.length).dropWhile isPySpace)
    else none

/-- One `ORDER_HEADER` alternative matches at the head of `txt`, with a
trailing word boundary. -/
def altMatchAt (alt : List (List Char)) (txt : List Char) : Bool :=
  match matchWordsRest alt txt with
  | none => false
  | some [] => true
  | some (c :: _) => !isWordC c

def orderSearchAux : Option Char → List Char → Bool
  | _, [] => false
  | prev, c :: rest =>
    (wordBoundOK prev
       && orderAlts.any (fun alt => altMatchAt (alt.map String.data) (c :: rest)))
    || orderSearchAux (some c) rest

/-- `ORDER_HEADER.search(s)` (case-insensitive, word-bounded). -/
def orderSearch (s : String) : Bool := orderSearchAux none (s.data.map Char.toLower)

/-! ## `TOKEN_RE.findall`: `\b[A-Z][A-Z0-9\-\.]{3,}\b` -/

/-- Backtrack the greedy `{3,}` span from the right until the trailing `\b`
holds; a surviving match keeps length ≥ 4. -/
def shrinkTok : Nat → List Char → Option Char → Option (List Char)
  | 0, _, _ => none
  | fuel + 1, s, after =>
    if s.length < 4 then none
    else if boundEndOK (s.getLastD ' ') after then some s
    else shrinkTok fuel s.dropLast (some (s.getLastD ' '))

def findTokensAux : Nat → Option Char → List Char → List String
  | 0, _, _ => []
  | _, _, [] => []
  | fuel + 1, prev, c :: rest =>
    if wordBoundOK prev && c.isUpper then
      let span := c :: rest.takeWhile tokClassC
      let after := (rest.dropWhile tokClassC).head?
      match shrinkTok (span.length + 1) span after with
      | some t =>
        String.mk t :: findTokensAux fuel (some (t.getLastD ' ')) ((c :: rest).drop t.length)
      | none => findTokensAux fuel (some c) rest
    else findTokensAux fuel (some c) rest

/-- `TOKEN_RE.findall(s)`: non-overlapping, leftmost, greedy with `\b` ends. -/
def findTokens (s : String) : List String := findTokensAux (s.data.length + 1) none s.data

/-- `tokenize_candidates`. -/
def tokenizeCandidates (s : String) : List String := (findTokens s).filter isPartToken

/-! ## Vendor-code scanners: `TI_LIT_RE` and `LONG_UPPER_ALNUM` -/

/-- `TI_LIT_RE.finditer`: `\b(SL[A-Z]{1,2}[A-Z0-9]{3,})\b` in match order. -/
def tiLitAux : Nat → Option Char → List Char → List String
  | 0, _, _ => []
  | _, _, [] => []
  | fuel + 1, prev, c :: rest =>
    if wordBoundOK prev && startsWithC ['S', 'L'] (c :: rest) then
      let t2 := (c :: rest).drop 2
      let run := t2.takeWhile isUpperDigit
      let after := (t2.dropWhile isUpperDigit).head?
      if 4 ≤ run.length && (run.headD ' ').isUpper && endBoundNoWord after then
        let m := 'S' :: 'L' :: run
        String.mk m :: tiLitAux fuel (some (m.getLastD ' ')) ((c :: rest).drop m.length)
      else tiLitAux fuel (some c) rest
    else tiLitAux fuel (some c) rest

/-- `LONG_UPPER_ALNUM.finditer`: `\b[A-Z0-9]{10,}\b` in match order. -/
def longUpperAux : Nat → Option Char → List Char → List String
  | 0, _, _ => []
  | _, _, [] => []
  | fuel + 1, prev, c :: rest =>
    if wordBoundOK prev && isUpperDigit c then
      let run := c :: rest.takeWhile isUpperDigit
      let after := (rest.dropWhile isUpperDigit).head?
      if 10 ≤ run.length && endBoundNoWord after then
        String.mk run :: longUpperAux fuel (some (run.getLastD ' ')) ((c :: rest).drop run.length)
      else longUpperAux fuel (some c) rest
    else longUpperAux fuel (some c) rest

/-- `extract_vendor_codes_text`. -/
def extractVendorCodesText (text : String) : List String :=
  let out1 := (tiLitAux (text.data.length + 1) none text.data).foldl
    (fun out code => if code ∈ out then out else out ++ [code]) []
  (longUpperAux (text.data.length + 1) none text.data).foldl
    (fun out tok =>
      if (tok.data.any Char.isDigit && tok.data.any Char.isAlpha) && tok ∉ out then
        out ++ [tok]
      else out) out1

/-! ## `find_packages` scanners -/

def patWords : List String :=
  ["QFN", "LQFP", "TQFP", "QFP", "BGA", "FBGA", "WLCSP", "SOIC", "SSOP", "DFN",
   "QFPN", "QPN", "LGA"]

def pkgPre : List String :=
  ["QF", "LQ", "TQ", "BG", "DF", "WL", "SO", "SS", "RGZ", "RGE", "ZEJ", "ZCZ",
   "ZFG", "ALW", "AMC"]

/-- `re.finditer(rf"\b{w}[0-9]*\b", text)`: the word `w` followed by the
maximal digit run, word-bounded. -/
def pkgWordAux (w : List Char) : Nat → Option Char → List Char → List String
  | 0, _, _ => []
  | _, _, [] => []
  | fuel + 1, prev, c :: rest =>
    if wordBoundOK prev && startsWithC w (c :: rest) then
      let t2 := (c :: rest).drop w.length
      let digits := t2.takeWhile Char.isDigit
      let after := (t2.dropWhile Char.isDigit).head?
      if endBoundNoWord after then
        let m := w ++ digits
        String.mk m :: pkgWordAux w fuel (some (m.getLastD ' ')) ((c :: rest).drop m.length)
      else pkgWordAux w fuel (some c) rest
    else pkgWordAux w fuel (some c) rest

/-- `re.finditer(r"\b([A-Z]{2,5}[0-9]{2,4})\b", text)`. -/
def genPkgAux : Nat → Option Char → List Char → List String
  | 0, _, _ => []
  | _, _, [] => []
  | fuel + 1, prev, c :: rest =>
    if wordBoundOK prev && c.isUpper then
      let letters := c :: rest.takeWhile Char.isUpper
      let t2 := (c :: rest).drop letters.length
      let digits := t2.takeWhile Char.isDigit
      let after := (t2.dropWhile Char.isDigit).head?
      if 2 ≤ letters.length && letters.length ≤ 5 && 2 ≤ digits.length
          && digits.length ≤ 4 && endBoundNoWord after then
        let m := letters ++ digits
        String.mk m :: genPkgAux fuel (some (m.getLastD ' ')) ((c :: rest).drop m.length)
      else genPkgAux fuel (some c) rest
    else genPkgAux fuel (some c) rest

/-- Insertion step of `sorted` (ascending code-point order, distinct inputs). -/
def insertStrAsc (x : String) : List String → List String
  | [] => [x]
  | y :: ys => if strLtB x.data y.data then x :: y :: ys else y :: insertStrAsc x ys

def sortStrAsc (l : List String) : List String := l.foldr insertStrAsc []

/-! ## `pin_table.py`: discovery, scoring, selection, normalization -/

def CANONICAL_HEADERS : List String :=
  ["Pin Number", "Pin Name", "Signal Name", "Direction", "Type", "Description"]

/-- A raw cell is non-blank under `cell.strip()` truthiness. -/
def cellNonBlank (c : String) : Bool := !(pyStrip c.data).isEmpty

/-- Pad a row with `""` to `n` columns (`while len(row) < max_cols: append("")`). -/
def padRight (row : List String) (n : Nat) : List String :=
  row ++ List.replicate (n - row.length) ""

/-- Rows of a raw markup table that survive the non-empty filter. -/
def discoveredRows (raw : List (List String)) : List (List String) :=
  raw.filter (fun cells => !cells.isEmpty && cells.any cellNonBlank)

/-- `max(len(row) for row in rows)` starting from the empty accumulator. -/
def maxColsOf (rows : List (List String)) : Nat := (rows.map List.length).foldl max 0

/-- Pad every row to the maximal column count, then truncate to it. -/
def padToMaxCols (rows : List (List String)) : List (List String) :=
  rows.map (fun row => (padRight row (maxColsOf rows)).take (maxColsOf rows))

/-- `extract_html_tables`, from the per-table raw `tr` cell lists. -/
def extractHtmlTables (rawTables : List (List (List String))) :
    List (List (List String)) :=
  rawTables.foldl (fun tables raw =>
    if 2 ≤ (discoveredRows raw).length then tables ++ [padToMaxCols (discoveredRows raw)]
    else tables) []

def strongKws : List String := ["pin", "ball", "terminal"]
def moderateKws : List String := ["signal", "function", "description", "type", "direction", "name"]
def electricalKws : List String := ["min", "max", "typical", "units", "conditions", "parameter"]
def supplyMnemonics : List String := ["VDD", "VSS", "GND", "VCC", "NC", "AVDD", "DVDD"]

/-- Number of keywords of `kws` occurring as substrings of `h`. -/
def kwCount (kws : List String) (h : String) : Nat :=
  (kws.filter (fun kw => containsSubS kw h)).length

/-- Keyword score of the header row: +20 per strong and +10 per moderate
keyword occurrence, per header cell. -/
def headerKwScore : List String → Int
  | [] => 0
  | h :: rest =>
    20 * (kwCount strongKws h : Int) + 10 * (kwCount moderateKws h : Int) + headerKwScore rest

/-- Total number of (header cell, electrical keyword) containment pairs. -/
def electricalCount : List String → Nat
  | [] => 0
  | h :: rest => kwCount electricalKws h + electricalCount rest

/-- The −30 electrical-characteristics penalty, applied once at threshold 2. -/
def elecPenalty (headers : List String) : Int :=
  if 2 ≤ electricalCount headers then -30 else 0

/-- A first-column cell that looks pin-like: pure digits, a ball-grid
coordinate `[A-Z]\d+`, or a known supply/ground mnemonic. -/
def pinLikeCell (cell : String) : Bool :=
  (!cell.data.isEmpty && cell.data.all Char.isDigit)
  || (match cell.data with
      | c :: ds => c.isUpper && !ds.isEmpty && ds.all Char.isDigit
      | [] => false)
  || supplyMnemonics.contains (pyUpper cell)

/-- `[row[0].strip() for row in table[1:] if row and row[0].strip()]`. -/
def firstColData (table : List (List String)) : List String :=
  (table.drop 1).filterMap (fun row =>
    match row.head? with
    | none => none
    | some c =>
      let s := pyStrip c.data
      if s.isEmpty then none else some (String.mk s))

/-- Lower-cased header row of a table. -/
def lowerHeaders (table : List (List String)) : List String :=
  (table.headD []).map pyLower

def pinLikeCount (table : List (List String)) : Nat :=
  ((firstColData table).take 10).countP pinLikeCell

/-- Header-count bonus: `+15 if len ≥ 4 elif len ≥ 6 then +25 else 0`. -/
def headerCountBonus (n : Nat) : Int :=
  if 4 ≤ n then 15 else if 6 ≤ n then 25 else 0

/-- `score_table_for_pins`. -/
def scoreTableForPins (table : List (List String)) : Int :=
  if table.isEmpty || table.length < 3 then 0
  else
    headerKwScore (lowerHeaders table)
      + 8 * (pinLikeCount table : Int)
      + elecPenalty (lowerHeaders table)
      + min (2 * ((table.length : Int) - 1)) 40
      + headerCountBonus (lowerHeaders table).length

/-- Stable descending insertion (Python `sort(key=score, reverse=True)`):
an element goes in front of the first strictly-smaller-or-equal score
inserted after it, keeping original order among equal scores. -/
def insertScoredDesc (x : Int × List (List String)) :
    List (Int × List (List String)) → List (Int × List (List String))
  | [] => [x]
  | y :: ys => if y.1 ≤ x.1 then x :: y :: ys else y :: insertScoredDesc x ys

def sortScoredDesc (l : List (Int × List (List String))) :
    List (Int × List (List String)) :=
  l.foldr insertScoredDesc []

/-- `select_best_table`. -/
def selectBestTable (tables : List (List (List String))) : List (List String) :=
  if tables.isEmpty then [CANONICAL_HEADERS]
  else
    match sortScoredDesc (tables.map (fun t => (scoreTableForPins t, t))) with
    | [] => [CANONICAL_HEADERS]
    | (s, t) :: _ => if 0 < s then t else [CANONICAL_HEADERS]

/-- `normalize_table_headers`: first-matching-rule rewrite of one header cell. -/
def normalizeHeader (header : String) : String :=
  let h := String.mk (pyStrip (header.data.map Char.toLower))
  if (["pin", "number", "#"].any (fun w => containsSubS w h)) && !containsSubS "name" h then
    "Pin Number"
  else if containsSubS "name" h && (["pin", "ball"].any (fun w => containsSubS w h)) then
    "Pin Name"
  else if (["signal", "function"].any (fun w => containsSubS w h)) && !containsSubS "description" h then
    "Signal Name"
  else if ["direction", "i/o", "io"].any (fun w => containsSubS w h) then
    "Direction"
  else if containsSubS "type" h then
    "Type"
  else if ["description", "function"].any (fun w => containsSubS w h) then
    "Description"
  else header

def normalizeTableHeaders (table : List (List String)) : List (List String) :=
  match table with
  | [] => [CANONICAL_HEADERS]
  | headers :: rest => headers.map normalizeHeader :: rest

/-- `extract_pin_tables` on a markup document, given the raw `tr` cell lists
of its tables; the result models the returned one-entry mapping. -/
def extractPinTablesHtml (rawTables : List (List (List String))) :
    List (String × List (List String)) :=
  [("DEFAULT_PACKAGE", normalizeTableHeaders (selectBestTable (extractHtmlTables rawTables)))]

/-! ## Document model for `identify.py` (markup branch)

A parsed markup document is modelled at the level `BeautifulSoup` exposes
it: every element in document order with its tag and `get_text` result,
plus the structured view of each table (header section, caption, nearest
preceding heading, and all `tr` cell-text rows).  The metadata strings and
the title are carried directly. -/

structure HtmlNode where
  tag : String
  text : String
deriving DecidableEq, Repr

structure HtmlTable where
  theadRow : Option (List String)
  caption : Option String
  prevHeading : Option String
  rows : List (List String)
deriving DecidableEq, Repr

structure HtmlModel where
  title : String
  metas : List String
  nodes : List HtmlNode
  tables : List HtmlTable
deriving DecidableEq, Repr

/-- The ancestor directory names (`parent`, `parent.parent`,
`parent.parent.parent`) and the file stem of the input path. -/
structure PathModel where
  ancestorNames : List String
  stem : String
deriving DecidableEq, Repr

structure TextBits where
  title : String
  headings : List String
  meta : List String
  body : String
deriving DecidableEq, Repr

structure IdentifyResult where
  device_name : Option String
  part_candidates : List String
  packages : List String
deriving DecidableEq, Repr

def nodesWithTag (m : HtmlModel) (tag : String) : List String :=
  (m.nodes.filter (fun nd => nd.tag = tag)).map (fun nd => nd.text)

/-- `extract_text_bits_html`: title, h1–h4 texts grouped by tag, metadata,
and the joined text of the first 50 paragraphs. -/
def extractTextBitsHtml (m : HtmlModel) : TextBits :=
  { title := String.mk (pyStrip m.title.data)
    headings := (["h1", "h2", "h3", "h4"].map
      (fun tag => (nodesWithTag m tag).filter (fun t => t ≠ ""))).flatten
    meta := m.metas
    body := String.intercalate " " ((nodesWithTag m "p").take 50) }

/-! ## Candidate extractors -/

/-- `if is_part_token(tok) and tok not in parts: parts.append(tok)`. -/
def addTokIfNew (parts : List String) (tok : String) : List String :=
  if isPartToken tok && !parts.contains tok then parts ++ [tok] else parts

/-- Header row of a markup table: the header section's first row when it has
cells, else the table's first row. -/
def htmlTableHeaders (t : HtmlTable) : List String :=
  match t.theadRow with
  | some h => if h.isEmpty then t.rows.headD [] else h
  | none => t.rows.headD []

def flaggedIndices (flags : List Bool) : List Nat :=
  ((flags.enum).filter (fun p => p.2)).map (fun p => p.1)

/-- Scan one data row: the flagged columns when any header flag fired,
otherwise every column of the row. -/
def scanCells (flags : List Bool) (cells : List String) (parts : List String) :
    List String :=
  let scanCols := if flags.any id then flaggedIndices flags else List.range cells.length
  scanCols.foldl (fun parts idx =>
    if idx < cells.length then (findTokens (cells.getD idx "")).foldl addTokIfNew parts
    else parts) parts

/-- `part_candidates_from_html_tables`.  The caption/preceding-heading
relevance flags are computed exactly as in the source, where the combined
check ends in `pass`; scanning proceeds for every table regardless. -/
def partCandidatesFromHtmlTables (tables : List HtmlTable) : List String :=
  tables.foldl (fun parts t =>
    let headers := htmlTableHeaders t
    let _capOk := match t.caption with | some c => orderSearch c | none => false
    let _prevOk := match t.prevHeading with | some h => orderSearch h | none => false
    let flags := headers.map orderSearch
    (t.rows.drop 1).foldl (fun parts cells => scanCells flags cells parts) parts) []

/-- `part_candidates_from_ordering_sections`: from every h1–h4 heading whose
text matches the ordering pattern, walk the next 50 elements in document
order and collect newly seen accepted tokens. -/
def partCandidatesFromOrderingSections (nodes : List HtmlNode) : List String :=
  nodes.enum.foldl (fun parts p =>
    if p.2.tag ∈ (["h1", "h2", "h3", "h4"] : List String) && orderSearch p.2.text then
      ((nodes.drop (p.1 + 1)).take 50).foldl
        (fun parts nd => (findTokens nd.text).foldl addTokIfNew parts) parts
    else parts) []

/-- Column count of a detected page-document table (`df.shape[1]`). -/
def pdfNumCols (df : List (List String)) : Nat := (df.headD []).length

/-- `part_candidates_from_pdf_tables`, over the detected tables in
processing order (the per-page/per-flavor reads concatenated). -/
def partCandidatesFromPdfTables (dfs : List (List (List String))) : List String :=
  dfs.foldl (fun parts df =>
    if df.length = 0 then parts
    else
      let headers := df.headD []
      let flags := headers.map orderSearch
      (df.drop 1).foldl (fun parts row => scanCells flags row parts) parts) []

/-- `path_candidates` component filter: `^[A-Z][A-Z0-9\-.]{3,}$`. -/
def pathShapeOK (name : String) : Bool :=
  match name.data with
  | c :: rest => c.isUpper && 3 ≤ rest.length && rest.all tokClassC
  | [] => false

/-- `path_candidates`. -/
def pathCandidates (p : PathModel) : List String :=
  let parts := p.ancestorNames.foldl (fun parts name =>
    if name.isEmpty || name ∈ REJECT then parts
    else if pathShapeOK name && name.data.any Char.isDigit then parts ++ [name]
    else parts) []
  if pathShapeOK p.stem && p.stem.data.any Char.isDigit && !parts.contains p.stem then
    parts ++ [p.stem]
  else parts

/-! ## Frequency scoring and packages -/

/-- First-occurrence-ordered frequency map (Python `dict` insertion order). -/
def bumpFreq : List (String × Nat) → String → List (String × Nat)
  | [], t => [(t, 1)]
  | (s, n) :: rest, t => if s = t then (s, n + 1) :: rest else (s, n) :: bumpFreq rest t

def countFreq (l : List String) : List (String × Nat) := l.foldl bumpFreq []

/-- Descending comparison on `(score, token)` tuples (Python
`sort(reverse=True)` on pairs; all tokens are distinct). -/
def scoreTupGt (x y : Nat × String) : Bool :=
  if y.1 < x.1 then true else if x.1 = y.1 then strLtB y.2.data x.2.data else false

def insertTupDesc (x : Nat × String) : List (Nat × String) → List (Nat × String)
  | [] => [x]
  | y :: ys => if scoreTupGt x y then x :: y :: ys else y :: insertTupDesc x ys

def sortTupleDesc (l : List (Nat × String)) : List (Nat × String) :=
  l.foldr insertTupDesc []

/-- `score_parts`: frequency + 5 for a title hit + 3 for a headings hit,
sorted descending. -/
def scoreParts (bits : TextBits) : List String :=
  let allText := String.intercalate " \n "
    [bits.title, String.intercalate " \n " bits.headings,
     String.intercalate " " bits.meta, bits.body]
  let pool := tokenizeCandidates allText
  if pool.isEmpty then []
  else
    let headings := String.intercalate " \n " bits.headings
    let scores := (countFreq pool).map (fun p =>
      (p.2 + (if containsSubS p.1 bits.title then 5 else 0)
           + (if containsSubS p.1 headings then 3 else 0), p.1))
    (sortTupleDesc scores).map (fun p => p.2)

/-- `find_packages`. -/
def findPackages (bits : TextBits) : List String :=
  let text := (String.intercalate " \n "
    [bits.title, String.intercalate " \n " bits.headings, bits.body]).data
  let pass1 := patWords.foldl
    (fun acc w => acc ++ pkgWordAux w.data (text.length + 1) none text) []
  let pass2 := (genPkgAux (text.length + 1) none text).filter
    (fun tok => pkgPre.any (fun p => startsWithC p.data tok.data))
  sortStrAsc ((pass1 ++ pass2).foldl (fun out t => if t ∈ out then out else out ++ [t]) [])

/-! ## Candidate merger and the two `identify_file` branches -/

/-- First-occurrence-wins dedup against the accumulated `seen` list. -/
def dedupAux : List String → List String → List String
  | [], _ => []
  | t :: ts, seen =>
    if t ∈ seen then dedupAux ts seen else t :: dedupAux ts (t :: seen)

/-- Python `list(dict.fromkeys(l))` / the `if t not in merged` loop. -/
def pyDedup (l : List String) : List String := dedupAux l []

/-- The vendor-code text pool: title, headings and body. -/
def vendorPoolText (bits : TextBits) : String :=
  String.intercalate " \n "
    [bits.title, String.intercalate " \n " bits.headings, bits.body]

/-- `identify_file` on a markup document. -/
def identifyFile (p : PathModel) (m : HtmlModel) : IdentifyResult :=
  let bits := extractTextBitsHtml m
  let tableParts := partCandidatesFromHtmlTables m.tables
  let secParts := partCandidatesFromOrderingSections m.nodes
  let vendorCodes := extractVendorCodesText (vendorPoolText bits)
  let tableParts2 := pyDedup (tableParts ++ secParts ++ vendorCodes)
  let partsPath := pathCandidates p
  let partsText := scoreParts bits
  let merged := pyDedup (partsPath ++ tableParts2 ++ partsText)
  { device_name := merged.head?
    part_candidates := merged.take 2000
    packages := (findPackages bits).take 20 }

/-- `identify_file` on a page-oriented document, after the external text and
table detection passes (`extract_text_bits_pdf`, `camelot`). -/
def identifyFilePdf (p : PathModel) (bits : TextBits)
    (dfs : List (List (List String))) : IdentifyResult :=
  let tableParts := partCandidatesFromPdfTables dfs
  let vendorCodes := extractVendorCodesText (vendorPoolText bits)
  let tableParts2 := pyDedup (tableParts ++ vendorCodes)
  let partsPath := pathCandidates p
  let partsText := scoreParts bits
  let merged := pyDedup (partsPath ++ tableParts2 ++ partsText)
  { device_name := merged.head?
    part_candidates := merged.take 2000
    packages := (findPackages bits).take 20 }

/-! ## Concrete documents used by the claims -/

def c1TableRows : List (List String) :=
  [["Pin", "Name", "Type"], ["1", "VDD", "Power"], ["2", "GND", "Power"]]

/-- The end-to-end scenario document: title `"XYZ1234 Datasheet"`, an
`"Ordering Information"` heading, a paragraph naming `"XYZ1234A-EVK"`, and
the three-row pin table. -/
def c1Doc : HtmlModel :=
  { title := "XYZ1234 Datasheet"
    metas := []
    nodes :=
      [⟨"html", "XYZ1234 Datasheet Ordering Information Order the evaluation kit XYZ1234A-EVK today. Pin Name Type 1 VDD Power 2 GND Power"⟩,
       ⟨"head", "XYZ1234 Datasheet"⟩,
       ⟨"title", "XYZ1234 Datasheet"⟩,
       ⟨"body", "Ordering Information Order the evaluation kit XYZ1234A-EVK today. Pin Name Type 1 VDD Power 2 GND Power"⟩,
       ⟨"h2", "Ordering Information"⟩,
       ⟨"p", "Order the evaluation kit XYZ1234A-EVK today."⟩,
       ⟨"table", "Pin Name Type 1 VDD Power 2 GND Power"⟩,
       ⟨"tr", "Pin Name Type"⟩, ⟨"th", "Pin"⟩, ⟨"th", "Name"⟩, ⟨"th", "Type"⟩,
       ⟨"tr", "1 VDD Power"⟩, ⟨"td", "1"⟩, ⟨"td", "VDD"⟩, ⟨"td", "Power"⟩,
       ⟨"tr", "2 GND Power"⟩, ⟨"td", "2"⟩, ⟨"td", "GND"⟩, ⟨"td", "Power"⟩]
    tables := [⟨none, none, some "Ordering Information", c1TableRows⟩] }

/-- A path whose components contribute no identifier-shaped candidate. -/
def c1Path : PathModel := ⟨["docs", "data", ""], "datasheet"⟩

/-- Append one header cell to a table's header row, holding all else fixed. -/
def addHeaderCell (t : List (List String)) (c : String) : List (List String) :=
  match t with
  | [] => []
  | h :: rest => (h ++ [c]) :: rest

def c3Table : List (List String) :=
  [["min", "a", "b", "c"], ["x", "q", "q", "q"], ["y", "q", "q", "q"]]

def c2Table : List (List String) :=
  [["a", "b", "c", "d"], ["1", "x", "y", "z"], ["2", "x", "y", "z"]]

def c4Table : List (List String) :=
  [["pin", "type"], ["1", "a"], ["2", "b"]]

/-- A markup document whose only table has exactly two non-empty rows. -/
def c10Raws : List (List (List String)) := [[["A", "B"], ["C", "D"]]]

def stripRelevanceSignals (t : HtmlTable) : HtmlTable :=
  { t with caption := none, prevHeading := none }

/-- Modelled from the spec: scan-always, column-subset-only-if-flagged —
every table's non-header rows are scanned and only the header flags (never
the caption or preceding-heading signal) influence column selection. -/
def htmlTableScanSpec (tables : List HtmlTable) : List String :=
  tables.foldl (fun parts t =>
    let flags := (htmlTableHeaders t).map orderSearch
    (t.rows.drop 1).foldl (fun parts cells => scanCells flags cells parts) parts) []

/-- Modelled from the spec: the page-document analogue, headers taken from
each detected table's first row. -/
def pdfTableScanSpec (dfs : List (List (List String))) : List String :=
  dfs.foldl (fun parts df =>
    if df.length = 0 then parts
    else
      let flags := (df.headD []).map orderSearch
      (df.drop 1).foldl (fun parts row => scanCells flags row parts) parts) []

def runTwice {α β : Type _} (f : α → β) (x : α) : β × β := (f x, f x)

/-! ## Helper lemmas -/

/-- Seen-set accumulated by a dedup pass over `l` starting from `s`. -/
def seenAfter (l : List String) (s : List String) : List String :=
  l.foldl (fun s t => if t ∈ s then s else t :: s) s

/-- Head of the list bounds every element's score. -/
def headIsMax : List (Int × List (List String)) → Prop
  | [] => True
  | x :: xs => ∀ z ∈ x :: xs, z.1 ≤ x.1

theorem dedupAux_append (l₁ l₂ s : List String) :
    dedupAux (l₁ ++ l₂) s = dedupAux l₁ s ++ dedupAux l₂ (seenAfter l₁ s) := by
  induction l₁ generalizing s with
  | nil => simp [dedupAux, seenAfter]
  | cons t ts ih =>
    by_cases h : t ∈ s
    · simp [dedupAux, seenAfter, h, ih, List.foldl]
    · simp [dedupAux, seenAfter, h, ih, List.foldl]

theorem dedupAux_idem (m c u s : List String) (h : ∀ x, x ∈ u → x ∈ s) :
    dedupAux (dedupAux m u ++ c) s = dedupAux (m ++ c) s := by
  induction m generalizing u s with
  | nil => simp [dedupAux]
  | cons t ts ih =>
    by_cases hu : t ∈ u
    · have hs : t ∈ s := h t hu
      simp only [dedupAux, if_pos hu, List.cons_append, if_pos hs]
      exact ih u s h
    · by_cases hs : t ∈ s
      · simp only [dedupAux, if_neg hu, List.cons_append, if_pos hs]
        exact ih (t :: u) s (by
          intro x hx
          rcases List.mem_cons.mp hx with rfl | hx
          · exact hs
          · exact h x hx)
      · simp only [dedupAux, if_neg hu, List.cons_append, if_neg hs]
        have := ih (t :: u) (t :: s) (by
          intro x hx
          rcases List.mem_cons.mp hx with rfl | hx
          · exact List.mem_cons_self x s
          · exact List.mem_cons_of_mem t (h x hx))
        rw [this]
        rfl

theorem pyDedup_mid (a m e : List String) :
    pyDedup (a ++ pyDedup m ++ e) = pyDedup (a ++ m ++ e) := by
  unfold pyDedup
  rw [List.append_assoc, List.append_assoc, dedupAux_append a (dedupAux m [] ++ e) [],
    dedupAux_idem m e [] (seenAfter a []) (by intro x hx; cases hx),
    ← dedupAux_append]

theorem dedupAux_nodup (l s : List String) :
    (dedupAux l s).Nodup ∧ ∀ x ∈ dedupAux l s, x ∉ s := by
  induction l generalizing s with
  | nil => simp [dedupAux]
  | cons t ts ih =>
    by_cases h : t ∈ s
    · simpa [dedupAux, h] using ih s
    · obtain ⟨hnd, hmem⟩ := ih (t :: s)
      refine ⟨?_, ?_⟩
      · simp only [dedupAux, if_neg h, List.nodup_cons]
        exact ⟨fun hc => (hmem t hc) (List.mem_cons_self t s), hnd⟩
      · intro x hx
        simp only [dedupAux, if_neg h, List.mem_cons] at hx
        rcases hx with rfl | hx
        · exact h
        · exact fun hxs => (hmem x hx) (List.mem_cons_of_mem t hxs)

theorem pyDedup_nodup (l : List String) : (pyDedup l).Nodup :=
  (dedupAux_nodup l []).1

theorem headerKwScore_append (l : List String) (x : String) :
    headerKwScore (l ++ [x]) =
      headerKwScore l + 20 * (kwCount strongKws x : Int) + 10 * (kwCount moderateKws x : Int) := by
  induction l with
  | nil => simp [headerKwScore]
  | cons h t ih =>
    have e : (h :: t) ++ [x] = h :: (t ++ [x]) := rfl
    rw [e]
    simp only [headerKwScore]
    rw [ih]
    ring

theorem electricalCount_append (l : List String) (x : String) :
    electricalCount (l ++ [x]) = electricalCount l + kwCount electricalKws x := by
  induction l with
  | nil => simp [electricalCount]
  | cons h t ih =>
    have e : (h :: t) ++ [x] = h :: (t ++ [x]) := rfl
    rw [e]
    simp only [electricalCount]
    rw [ih]
    omega

theorem headerCountBonus_eq (n : Nat) : headerCountBonus n = if 4 ≤ n then 15 else 0 := by
  unfold headerCountBonus
  split_ifs <;> omega

theorem headerCountBonus_mono (n : Nat) : headerCountBonus n ≤ headerCountBonus (n + 1) := by
  rw [headerCountBonus_eq, headerCountBonus_eq]
  split_ifs <;> omega

theorem scoreTableForPins_short (t : List (List String)) (h : t.length < 3) :
    scoreTableForPins t = 0 := by
  unfold scoreTableForPins
  split_ifs with hc
  · rfl
  · exact absurd (by simp [h]) hc

/-! Sort lemmas for `select_best_table`. -/

theorem mem_insertScoredDesc (x z : Int × List (List String))
    (l : List (Int × List (List String))) :
    z ∈ insertScoredDesc x l ↔ z = x ∨ z ∈ l := by
  induction l with
  | nil => simp [insertScoredDesc]
  | cons y ys ih =>
    by_cases h : y.1 ≤ x.1
    · simp [insertScoredDesc, h, List.mem_cons]
    · simp only [insertScoredDesc, if_neg h, List.mem_cons, ih]
      tauto

theorem insertScoredDesc_ne_nil (x : Int × List (List String))
    (l : List (Int × List (List String))) : insertScoredDesc x l ≠ [] := by
  cases l with
  | nil => simp [insertScoredDesc]
  | cons y ys =>
    by_cases h : y.1 ≤ x.1 <;> simp [insertScoredDesc, h]

theorem headIsMax_insert (x : Int × List (List String))
    (l : List (Int × List (List String))) (h : headIsMax l) :
    headIsMax (insertScoredDesc x l) := by
  cases l with
  | nil =>
    intro z hz
    rcases List.mem_cons.mp hz with rfl | hz
    · exact le_refl _
    · cases hz
  | cons y ys =>
    by_cases hxy : y.1 ≤ x.1
    · simp only [insertScoredDesc, if_pos hxy]
      intro z hz
      rcases List.mem_cons.mp hz with rfl | hz
      · exact le_refl _
      · exact le_trans (h z hz) hxy
    · simp only [insertScoredDesc, if_neg hxy]
      intro z hz
      rcases List.mem_cons.mp hz with rfl | hz
      · exact le_refl _
      · rcases (mem_insertScoredDesc x z ys).mp hz with rfl | hz
        · exact le_of_not_le hxy
        · exact h z (List.mem_cons_of_mem y hz)

theorem sortScoredDesc_headIsMax (l : List (Int × List (List String))) :
    headIsMax (sortScoredDesc l) := by
  induction l with
  | nil => trivial
  | cons x xs ih => exact headIsMax_insert x (sortScoredDesc xs) ih

theorem mem_sortScoredDesc (z : Int × List (List String))
    (l : List (Int × List (List String))) :
    z ∈ sortScoredDesc l ↔ z ∈ l := by
  induction l with
  | nil => simp [sortScoredDesc]
  | cons x xs ih =>
    rw [show sortScoredDesc (x :: xs) = insertScoredDesc x (sortScoredDesc xs) from rfl,
      mem_insertScoredDesc, ih, List.mem_cons]

theorem sortScoredDesc_ne_nil (x : Int × List (List String))
    (l : List (Int × List (List String))) :
    sortScoredDesc (x :: l) ≠ [] :=
  insertScoredDesc_ne_nil x (sortScoredDesc l)

theorem sortScored_head_cases (a : List (List String)) (as : List (List (List String)))
    (s : Int) (t : List (List String)) (rest : List (Int × List (List String)))
    (hsort : sortScoredDesc ((a :: as).map (fun u => (scoreTableForPins u, u)))
      = (s, t) :: rest) :
    t ∈ a :: as ∧ s = scoreTableForPins t ∧ ∀ u ∈ a :: as, scoreTableForPins u ≤ s := by
  have hmem : (s, t) ∈ sortScoredDesc ((a :: as).map fun u => (scoreTableForPins u, u)) := by
    rw [hsort]; exact List.mem_cons_self _ _
  rw [mem_sortScoredDesc] at hmem
  have hmax := sortScoredDesc_headIsMax ((a :: as).map fun u => (scoreTableForPins u, u))
  rw [hsort] at hmax
  obtain ⟨u, hu, he⟩ := List.mem_map.mp hmem
  cases he
  refine ⟨hu, rfl, ?_⟩
  intro v hv
  exact hmax (scoreTableForPins v, v) (by
    rw [← hsort, mem_sortScoredDesc]
    exact List.mem_map_of_mem _ hv)

theorem selectBestTable_le_zero (tables : List (List (List String)))
    (h : ∀ t ∈ tables, scoreTableForPins t ≤ 0) :
    selectBestTable tables = [CANONICAL_HEADERS] := by
  cases tables with
  | nil => rfl
  | cons a as =>
    rcases hsort : sortScoredDesc ((a :: as).map fun u => (scoreTableForPins u, u))
      with _ | ⟨⟨s, t⟩, rest⟩
    · exact absurd hsort (sortScoredDesc_ne_nil _ _)
    · obtain ⟨htmem, hs, _⟩ := sortScored_head_cases a as s t rest hsort
      have hnot : ¬ (0 < s) := not_lt.mpr (hs ▸ h t htmem)
      unfold selectBestTable
      rw [if_neg (by simp), hsort]
      simp [hnot]

theorem selectBestTable_pos (tables : List (List (List String)))
    (h : ∃ u ∈ tables, 0 < scoreTableForPins u) :
    selectBestTable tables ∈ tables ∧
      ∀ u ∈ tables, scoreTableForPins u ≤ scoreTableForPins (selectBestTable tables) := by
  cases tables with
  | nil =>
    obtain ⟨u, hu, _⟩ := h
    cases hu
  | cons a as =>
    rcases hsort : sortScoredDesc ((a :: as).map fun u => (scoreTableForPins u, u))
      with _ | ⟨⟨s, t⟩, rest⟩
    · exact absurd hsort (sortScoredDesc_ne_nil _ _)
    · obtain ⟨htmem, hs, hmax⟩ := sortScored_head_cases a as s t rest hsort
      obtain ⟨u, hu, hupos⟩ := h
      have hspos : 0 < s := lt_of_lt_of_le hupos (hmax u hu)
      have hsel : selectBestTable (a :: as) = t := by
        unfold selectBestTable
        rw [if_neg (by simp), hsort]
        simp [hspos]
      rw [hsel]
      exact ⟨htmem, fun v hv => hs ▸ hmax v hv⟩

/-! ## Claim theorems -/

/-- C6: the token classifier accepts `"STM32F103C8T6"`, rejects `"USB3.0"`
(protocol reject set), `"UTF-8"` (format reject set), `"I2C01"`
(signal-shape pattern) and `"1234"` (non-alphabetic first character). -/
theorem C6_classifier_vectors :
    isPartToken "STM32F103C8T6" = true ∧
    (isPartToken "USB3.0" = false ∧ pyUpper "USB3.0" ∈ PROTO_REJECT) ∧
    (isPartToken "UTF-8" = false ∧ "UTF-8" ∈ REJECT) ∧
    (isPartToken "I2C01" = false ∧ sigMatch "I2C01" = true) ∧
    (isPartToken "1234" = false ∧ ("1234".data.headD ' ').isAlpha = false) := by
  decide

/-- C2: the header-count bonus is exactly +15 whenever the header row has at
least 4 cells, the `≥ 6 → +25` branch can never fire, and a scored table
with at least 4 header cells receives exactly +15 from this bonus. -/
theorem C2_header_bonus (t : List (List String)) (n : Nat) :
    headerCountBonus n = (if 4 ≤ n then 15 else 0) ∧
    headerCountBonus n ≠ 25 ∧
    (4 ≤ (lowerHeaders t).length →
      scoreTableForPins t =
        (if t.isEmpty || t.length < 3 then 0
         else headerKwScore (lowerHeaders t) + 8 * (pinLikeCount t : Int)
           + elecPenalty (lowerHeaders t) + min (2 * ((t.length : Int) - 1)) 40 + 15)) := by
  refine ⟨headerCountBonus_eq n, ?_, ?_⟩
  · rw [headerCountBonus_eq]
    split_ifs <;> omega
  · intro h4
    unfold scoreTableForPins
    split_ifs with hc
    · rfl
    · rw [headerCountBonus_eq, if_pos h4]

/-- C2 witness: the bonus specialization evaluated at a concrete 4-header,
3-row table. -/
theorem C2_header_bonus_witness :
    scoreTableForPins c2Table =
      (if c2Table.isEmpty || c2Table.length < 3 then 0
       else headerKwScore (lowerHeaders c2Table) + 8 * (pinLikeCount c2Table : Int)
         + elecPenalty (lowerHeaders c2Table) + min (2 * ((c2Table.length : Int) - 1)) 40 + 15) :=
  (C2_header_bonus c2Table 4).2.2 (by decide)

/-- C3 (counterexample): appending the header cell `"min max pin"` — which
contains the strong keyword `"pin"` — to a table strictly decreases its
score, because the cell's two electrical keywords trip the −30 penalty, so
the claimed strict increase fails. -/
theorem C3_counterexample :
    kwCount strongKws (pyLower "min max pin") = 1 ∧
    scoreTableForPins (addHeaderCell c3Table "min max pin") < scoreTableForPins c3Table := by
  decide

/-- C9: determinism — running identification (markup or page-document
branch) or pin-table extraction twice on the same unchanged document model
yields the same output on both runs. -/
theorem C9_idempotent (p : PathModel) (m : HtmlModel) (bits : TextBits)
    (dfs raws : List (List (List String))) :
    (runTwice (fun q : PathModel × HtmlModel => identifyFile q.1 q.2) (p, m)).1
      = (runTwice (fun q : PathModel × HtmlModel => identifyFile q.1 q.2) (p, m)).2 ∧
    (runTwice (fun q : PathModel × TextBits × List (List (List String)) =>
        identifyFilePdf q.1 q.2.1 q.2.2) (p, bits, dfs)).1
      = (runTwice (fun q : PathModel × TextBits × List (List (List String)) =>
        identifyFilePdf q.1 q.2.1 q.2.2) (p, bits, dfs)).2 ∧
    (runTwice extractPinTablesHtml raws).1 = (runTwice extractPinTablesHtml raws).2 :=
  ⟨rfl, rfl, rfl⟩

/-- C1 (counterexample): on the end-to-end scenario document the claimed
normalized table `[["Pin Number","Pin Name","Type"], …]` is not produced:
the header `"Name"` alone does not satisfy the `Pin Name` rule (which also
requires `"pin"` or `"ball"`), so the conjunction claimed for the scenario
is false. -/
theorem C1_counterexample :
    ¬ ((identifyFile c1Path c1Doc).device_name = some "XYZ1234A-EVK" ∧
       extractPinTablesHtml [c1TableRows] =
         [("DEFAULT_PACKAGE",
           [["Pin Number", "Pin Name", "Type"],
            ["1", "VDD", "Power"], ["2", "GND", "Power"]])]) := by
  intro h
  exact absurd h.2 (by decide)

/-- C1 (amended): the scenario document yields primary identifier
`"XYZ1234A-EVK"` (ordering-section priority over the frequency-scored
`"XYZ1234"`), and the normalized pin table keeps the header `"Name"`
verbatim: `[["Pin Number","Name","Type"],["1","VDD","Power"],["2","GND","Power"]]`. -/
theorem C1_amended_scenario :
    (identifyFile c1Path c1Doc).device_name = some "XYZ1234A-EVK" ∧
    (identifyFile c1Path c1Doc).part_candidates = ["XYZ1234A-EVK", "XYZ1234"] ∧
    extractPinTablesHtml [c1TableRows] =
      [("DEFAULT_PACKAGE",
        [["Pin Number", "Name", "Type"],
         ["1", "VDD", "Power"], ["2", "GND", "Power"]])] := by
  refine ⟨?_, ?_, ?_⟩ <;> decide

/-- C7: dedup invariant — the candidate list returned by either
identification branch never contains two string-identical elements. -/
theorem C7_candidates_nodup (p : PathModel) (m : HtmlModel) (bits : TextBits)
    (dfs : List (List (List String))) :
    (identifyFile p m).part_candidates.Nodup ∧
    (identifyFilePdf p bits dfs).part_candidates.Nodup := by
  constructor
  · unfold identifyFile
    exact (List.take_sublist _ _).nodup (pyDedup_nodup _)
  · unfold identifyFilePdf
    exact (List.take_sublist _ _).nodup (pyDedup_nodup _)

/-- C5: merger order — the candidate list is the first-occurrence-wins
dedup of path-derived, table-derived, ordering-section (markup only),
vendor-code and frequency-scored candidates, in that order, capped at 2000
entries, and the primary identifier is its head. -/
theorem C5_merger_order (p : PathModel) (m : HtmlModel) (bits : TextBits)
    (dfs : List (List (List String))) :
    ((identifyFile p m).part_candidates =
      (pyDedup (pathCandidates p ++ partCandidatesFromHtmlTables m.tables
        ++ partCandidatesFromOrderingSections m.nodes
        ++ extractVendorCodesText (vendorPoolText (extractTextBitsHtml m))
        ++ scoreParts (extractTextBitsHtml m))).take 2000 ∧
     (identifyFile p m).device_name =
      (pyDedup (pathCandidates p ++ partCandidatesFromHtmlTables m.tables
        ++ partCandidatesFromOrderingSections m.nodes
        ++ extractVendorCodesText (vendorPoolText (extractTextBitsHtml m))
        ++ scoreParts (extractTextBitsHtml m))).head?) ∧
    ((identifyFilePdf p bits dfs).part_candidates =
      (pyDedup (pathCandidates p ++ partCandidatesFromPdfTables dfs
        ++ extractVendorCodesText (vendorPoolText bits) ++ scoreParts bits)).take 2000 ∧
     (identifyFilePdf p bits dfs).device_name =
      (pyDedup (pathCandidates p ++ partCandidatesFromPdfTables dfs
        ++ extractVendorCodesText (vendorPoolText bits) ++ scoreParts bits)).head?) := by
  have key3 : ∀ P A B C T : List String,
      pyDedup (P ++ pyDedup (A ++ B ++ C) ++ T) = pyDedup (P ++ A ++ B ++ C ++ T) := by
    intro P A B C T
    rw [pyDedup_mid]
    simp [List.append_assoc]
  have key2 : ∀ P A B T : List String,
      pyDedup (P ++ pyDedup (A ++ B) ++ T) = pyDedup (P ++ A ++ B ++ T) := by
    intro P A B T
    rw [pyDedup_mid]
    simp [List.append_assoc]
  refine ⟨⟨?_, ?_⟩, ?_, ?_⟩
  · simp only [identifyFile]
    rw [key3]
  · simp only [identifyFile]
    rw [key3]
  · simp only [identifyFilePdf]
    rw [key2]
  · simp only [identifyFilePdf]
    rw [key2]

/-- C4: when every discovered table scores at most 0 (including the
no-tables case, e.g. a raw table with a single row which discovery drops),
selection returns the sentinel consisting of exactly the canonical header
row and no data rows; otherwise it returns a highest-scoring table. -/
theorem C4_selection_sentinel (tables : List (List (List String))) :
    ((∀ t ∈ tables, scoreTableForPins t ≤ 0) →
      selectBestTable tables = [CANONICAL_HEADERS]) ∧
    ((∃ t ∈ tables, 0 < scoreTableForPins t) →
      selectBestTable tables ∈ tables ∧
        ∀ t ∈ tables, scoreTableForPins t ≤ scoreTableForPins (selectBestTable tables)) ∧
    (∀ raw : List (List String), raw.length ≤ 1 → extractHtmlTables [raw] = []) ∧
    CANONICAL_HEADERS =
      ["Pin Number", "Pin Name", "Signal Name", "Direction", "Type", "Description"] := by
  refine ⟨selectBestTable_le_zero tables, selectBestTable_pos tables, ?_, rfl⟩
  intro raw hraw
  have hle : (discoveredRows raw).length ≤ raw.length := List.length_filter_le _ _
  unfold extractHtmlTables
  simp only [List.foldl]
  rw [if_neg (by omega)]

/-- C4 witness: sentinel on an empty table list, best-table on a singleton
positive-score list, and discovery dropping a one-row table. -/
theorem C4_selection_sentinel_witness :
    selectBestTable [] = [CANONICAL_HEADERS] ∧
    (selectBestTable [c4Table] ∈ [c4Table] ∧
      ∀ t ∈ [c4Table], scoreTableForPins t ≤ scoreTableForPins (selectBestTable [c4Table])) ∧
    extractHtmlTables [[["solo", "row"]]] = [] :=
  ⟨(C4_selection_sentinel []).1 (by simp),
   (C4_selection_sentinel [c4Table]).2.1 ⟨c4Table, by simp, by decide⟩,
   (C4_selection_sentinel []).2.2.1 [["solo", "row"]] (by decide)⟩

/-- C3 (amended): for a table with at least 3 rows, appending one header
cell containing a strong keyword and no electrical keyword strictly
increases the score; and the −30 electrical penalty term is applied at most
once per table, exactly when the header row has at least two (header cell,
electrical keyword) containment matches. -/
theorem C3_amended_monotonicity :
    (∀ (t : List (List String)) (c : String), 3 ≤ t.length →
      1 ≤ kwCount strongKws (pyLower c) → kwCount electricalKws (pyLower c) = 0 →
      scoreTableForPins t < scoreTableForPins (addHeaderCell t c)) ∧
    (∀ headers : List String,
      (elecPenalty headers = -30 ↔ 2 ≤ electricalCount headers) ∧
      (elecPenalty headers = -30 ∨ elecPenalty headers = 0)) := by
  constructor
  · intro t c h3 hstrong helec
    cases t with
    | nil => simp at h3
    | cons h rest =>
      have hlen1 : ¬((h :: rest).isEmpty || decide ((h :: rest).length < 3)) = true := by
        simp only [List.isEmpty_cons, Bool.false_or, decide_eq_true_eq]
        omega
      have hlen2 : ¬(((h ++ [c]) :: rest).isEmpty
          || decide (((h ++ [c]) :: rest).length < 3)) = true := by
        simp only [List.isEmpty_cons, Bool.false_or, decide_eq_true_eq, List.length_cons]
        simp only [List.length_cons] at h3
        omega
      have hadd : addHeaderCell (h :: rest) c = (h ++ [c]) :: rest := rfl
      rw [hadd]
      unfold scoreTableForPins
      rw [if_neg hlen1, if_neg hlen2]
      have hlow : lowerHeaders ((h ++ [c]) :: rest) = lowerHeaders (h :: rest) ++ [pyLower c] := by
        simp [lowerHeaders]
      rw [hlow, headerKwScore_append]
      have hpen : elecPenalty (lowerHeaders (h :: rest) ++ [pyLower c])
          = elecPenalty (lowerHeaders (h :: rest)) := by
        unfold elecPenalty
        rw [electricalCount_append, helec, Nat.add_zero]
      rw [hpen]
      have hpin : pinLikeCount ((h ++ [c]) :: rest) = pinLikeCount (h :: rest) := rfl
      rw [hpin]
      have hlen3 : ((((h ++ [c]) :: rest).length : Int)) = (((h :: rest).length : Int)) := by
        simp
      rw [hlen3]
      have hblen : (lowerHeaders (h :: rest) ++ [pyLower c]).length
          = (lowerHeaders (h :: rest)).length + 1 := by simp
      rw [hblen]
      have hbon := headerCountBonus_mono (lowerHeaders (h :: rest)).length
      have hstrongi : (1 : Int) ≤ (kwCount strongKws (pyLower c) : Int) := by exact_mod_cast hstrong
      have hmodi : (0 : Int) ≤ (kwCount moderateKws (pyLower c) : Int) := Int.ofNat_nonneg _
      generalize hM : min (2 * (((h :: rest).length : Int) - 1)) 40 = M
      omega
  · intro headers
    unfold elecPenalty
    split_ifs with h2 <;> simp [h2]

/-- C3 witness: the amended monotonicity applied to the concrete table and
the pure strong-keyword cell `"pin"`. -/
theorem C3_amended_monotonicity_witness :
    scoreTableForPins c3Table < scoreTableForPins (addHeaderCell c3Table "pin") :=
  C3_amended_monotonicity.1 c3Table "pin" (by decide) (by decide) (by decide)

/-- C8: table-derived candidate extraction scans every table's non-header
rows regardless of any relevance signal (caption / preceding heading /
header flag), for both document kinds; the column subset is restricted to
the flagged indices exactly when some header cell matches the ordering
pattern, and is the full range of the row otherwise. -/
theorem C8_scan_always (tables : List HtmlTable) (dfs : List (List (List String)))
    (flags : List Bool) (cells parts : List String) :
    partCandidatesFromHtmlTables tables = htmlTableScanSpec tables ∧
    partCandidatesFromHtmlTables (tables.map stripRelevanceSignals)
      = partCandidatesFromHtmlTables tables ∧
    partCandidatesFromPdfTables dfs = pdfTableScanSpec dfs ∧
    (flags.any id = false →
      scanCells flags cells parts = (List.range cells.length).foldl
        (fun parts idx =>
          if idx < cells.length then (findTokens (cells.getD idx "")).foldl addTokIfNew parts
          else parts) parts) ∧
    (flags.any id = true →
      scanCells flags cells parts = (flaggedIndices flags).foldl
        (fun parts idx =>
          if idx < cells.length then (findTokens (cells.getD idx "")).foldl addTokIfNew parts
          else parts) parts) := by
  refine ⟨rfl, ?_, rfl, ?_, ?_⟩
  · unfold partCandidatesFromHtmlTables
    rw [List.foldl_map]
    exact rfl
  · intro hf
    simp [scanCells, hf]
  · intro hf
    simp [scanCells, hf]

/-- C8 witness: the column-selection rule evaluated at a one-column row,
first with no header flag, then with a matching header flag. -/
theorem C8_scan_always_witness :
    scanCells [false] ["x"] [] = (List.range (["x"] : List String).length).foldl
      (fun parts idx =>
        if idx < (["x"] : List String).length
        then (findTokens ((["x"] : List String).getD idx "")).foldl addTokIfNew parts
        else parts) [] ∧
    scanCells [true] ["x"] [] = (flaggedIndices [true]).foldl
      (fun parts idx =>
        if idx < (["x"] : List String).length
        then (findTokens ((["x"] : List String).getD idx "")).foldl addTokIfNew parts
        else parts) [] :=
  ⟨(C8_scan_always [] [] [false] ["x"] []).2.2.2.1 (by decide),
   (C8_scan_always [] [] [true] ["x"] []).2.2.2.2 (by decide)⟩

/-- C10 (counterexample): a markup document whose only table has exactly 2
rows does yield a header-only result, but not the sentinel itself: the
normalizer rewrites the sentinel's `"Description"` to `"Direction"`
(`"io"` is a substring of `"description"` and the Direction rule fires
first), so the output differs from the canonical header row. -/
theorem C10_counterexample :
    (∀ t ∈ extractHtmlTables c10Raws, t.length = 2) ∧
    extractPinTablesHtml c10Raws ≠ [("DEFAULT_PACKAGE", [CANONICAL_HEADERS])] := by
  refine ⟨?_, ?_⟩ <;> decide

/-- C10 (amended): the scorer returns 0 for every table with fewer than 3
rows, so a 2-row table is never selected, and a markup document all of
whose discovered tables have exactly 2 rows yields the header-only table
obtained by normalizing the sentinel:
`[["Pin Number","Pin Name","Signal Name","Direction","Type","Direction"]]`. -/
theorem C10_amended_sentinel :
    (∀ t : List (List String), t.length < 3 → scoreTableForPins t = 0) ∧
    (∀ raws : List (List (List String)),
      (∀ t ∈ extractHtmlTables raws, t.length = 2) →
      extractPinTablesHtml raws =
        [("DEFAULT_PACKAGE",
          [["Pin Number", "Pin Name", "Signal Name", "Direction", "Type", "Direction"]])]) := by
  refine ⟨scoreTableForPins_short, ?_⟩
  intro raws h2
  unfold extractPinTablesHtml
  have hsel : selectBestTable (extractHtmlTables raws) = [CANONICAL_HEADERS] :=
    selectBestTable_le_zero _ (fun t ht =>
      le_of_eq (scoreTableForPins_short t (by rw [h2 t ht]; omega)))
  rw [hsel]
  decide

/-- C10 witness: the amended statement applied to the zero-row table and to
the concrete two-row-table document. -/
theorem C10_amended_sentinel_witness :
    scoreTableForPins [] = 0 ∧
    extractPinTablesHtml c10Raws =
      [("DEFAULT_PACKAGE",
        [["Pin Number", "Pin Name", "Signal Name", "Direction", "Type", "Direction"]])] :=
  ⟨C10_amended_sentinel.1 [] (by decide), C10_amended_sentinel.2 c10Raws (by decide)⟩
